import Mathlib

/-!
Verification development for the microbe-music repository
(`src/app/page.tsx`).  The file shallowly embeds the two components of
the program:

* the scale math (`clampInt`, `freqForStep`, the memoised `freqs`
  list, and the cents column of the scale table), with JavaScript
  numbers modelled as rationals where the code only adds, multiplies,
  rounds and compares, and as reals where `Math.pow(2, step/edo)`
  appears;
* the playback controller (`stop`, `playScale`), modelled as a state
  machine over an explicit `PCState`.  JavaScript is single threaded,
  so a concurrent `stop()` click can only run at the `await` points of
  `playScale`; the embedding makes those interleaving points explicit
  through boolean oracles (`stopDuringResume`, `stopDuring i`).
  Fallible backend calls (`ctx.suspend()`, `ctx.resume()`) are
  modelled by success oracles, and an uncaught rejection surfaces as
  `Except.error`.
-/

namespace MicrobeMusic

/-! ### Scale math (`page.tsx` lines 14–21, 46–53, 270–277) -/

/-- JavaScript `Math.round`: round half toward positive infinity,
`Math.round(n) = ⌊n + 0.5⌋`. -/
def jsRound (n : ℚ) : ℤ := ⌊n + 1/2⌋

/-- Source `clampInt(n, min, max) = Math.max(min, Math.min(max, Math.round(n)))`
(`page.tsx` lines 14–16). -/
def clampInt (n lo hi : ℚ) : ℚ := max lo (min hi ((jsRound n : ℤ) : ℚ))

/-- Source `freqForStep(baseHz, step, edo) = baseHz * Math.pow(2, step / edo)`
(`page.tsx` lines 18–21). -/
noncomputable def freqForStep (baseHz : ℝ) (step : ℕ) (edo : ℤ) : ℝ :=
  baseHz * (2 : ℝ) ^ ((step : ℝ) / (edo : ℝ))

/-- Number of iterations of the JavaScript loop
`for (let i = 0; i < count; i++)` for a numeric bound `count`. -/
def loopCount (count : ℚ) : ℕ := (max 0 ⌈count⌉).toNat

/-- The memoised `freqs` array (`page.tsx` lines 46–53):
`count = clampInt(noteCount, 1, edo)`, then
`list.push(freqForStep(baseHz, i, edo))` for `i = 0 .. count-1`.
The React state `edo` and `noteCount` are always integers (they are
only ever set to integer literals, preset values, or `clampInt`
results), so they are taken as `ℤ` here. -/
noncomputable def freqs (baseHz : ℝ) (edo noteCount : ℤ) : List ℝ :=
  (List.range (loopCount (clampInt (noteCount : ℚ) 1 (edo : ℚ)))).map
    (fun i => freqForStep baseHz i edo)

/-- The cents column of the scale table (`page.tsx` line 271):
`cents = (1200 * i) / edo`. -/
def cents (step : ℕ) (edo : ℤ) : ℚ := (1200 * (step : ℚ)) / (edo : ℚ)

/-! ### UI input handlers (`page.tsx` lines 185–222) -/

/-- The base-frequency input handler
`onChange = setBaseHz(Number(e.target.value))`: the typed value is
stored unchanged (the `min={50}`/`max={2000}` attributes live only on
the HTML element and do not constrain the stored state). -/
def baseHzOnChange (v : ℚ) : ℚ := v

/-- The EDO input handler
`onChange = setEdo(clampInt(Number(e.target.value), 5, 53))`. -/
def edoOnChange (v : ℚ) : ℚ := clampInt v 5 53

/-- The note-count input handler
`onChange = setNoteCount(clampInt(Number(e.target.value), 1, edo))`. -/
def noteCountOnChange (v : ℚ) (edo : ℤ) : ℚ := clampInt v 1 (edo : ℚ)

/-! #### Basic facts about the clamp -/

theorem jsRound_intCast (k : ℤ) : jsRound (k : ℚ) = k := by
  unfold jsRound
  rw [add_comm, Int.floor_add_int]
  norm_num

theorem clampInt_intCast (n lo hi : ℤ) :
    clampInt (n : ℚ) (lo : ℚ) (hi : ℚ) = ((max lo (min hi n) : ℤ) : ℚ) := by
  unfold clampInt
  rw [jsRound_intCast]
  push_cast
  rfl

/-! ### Per-note audio scheduling (`page.tsx` lines 91–126)

The loop body of `playScale` schedules, for each frequency, a gain
envelope (four `AudioParam` events), an oscillator start/stop, and a
wall-clock wait.  Times are seconds on the audio clock (`now` is
`ctx.currentTime`); values are linear gain. -/

/-- Source `const noteMs = 240` — duration per note, milliseconds. -/
def noteMs : ℚ := 240

/-- Source `const gapMs = 30` — inter-note gap, milliseconds. -/
def gapMs : ℚ := 30

/-- Source `const attackMs = 8` — fade-in, milliseconds. -/
def attackMs : ℚ := 8

/-- Source `const releaseMs = 25` — fade-out, milliseconds. -/
def releaseMs : ℚ := 25

/-- One scheduled event on the gain `AudioParam`: either
`setValueAtTime(value, time)` or
`exponentialRampToValueAtTime(value, time)`. -/
inductive GainEvent where
  | setValue : ℚ → ℚ → GainEvent
  | expRamp : ℚ → ℚ → GainEvent
deriving DecidableEq, Repr

/-- Everything the loop body schedules for one note. -/
structure NoteSchedule where
  gainEvents : List GainEvent
  oscStart : ℚ
  oscStopAt : ℚ
  waitMs : ℚ
deriving DecidableEq, Repr

/-- The loop body's schedule for one note starting at audio-clock time
`now` (`page.tsx` lines 98–126):

* `gain.gain.setValueAtTime(0.0001, now)`;
* `gain.gain.exponentialRampToValueAtTime(0.2, now + attack)`;
* `gain.gain.setValueAtTime(0.2, now + Math.max(attack, duration - release))`;
* `gain.gain.exponentialRampToValueAtTime(0.0001, now + duration)`;
* `osc.start(now); osc.stop(now + duration + 0.01)`;
* `await new Promise(r => setTimeout(r, noteMs + gapMs))`. -/
def scheduleNote (now : ℚ) : NoteSchedule :=
  let attack := attackMs / 1000
  let duration := noteMs / 1000
  let release := releaseMs / 1000
  { gainEvents :=
      [ GainEvent.setValue 0.0001 now,
        GainEvent.expRamp 0.2 (now + attack),
        GainEvent.setValue 0.2 (now + max attack (duration - release)),
        GainEvent.expRamp 0.0001 (now + duration) ],
    oscStart := now,
    oscStopAt := now + duration + 0.01,
    waitMs := noteMs + gapMs }

/-! ### Playback controller (`page.tsx` lines 30–33, 55–149)

State of the page: the two refs `stopFlagRef` and `playingRef`, the
lazily created `AudioContext` (`none` = not yet created,
`some true` = running, `some false` = suspended), and — as the
observable output — the list of frequencies whose oscillators have
been started, in order. -/

structure PCState (α : Type) where
  stopFlag : Bool
  playing : Bool
  ctx : Option Bool
  started : List α
deriving DecidableEq, Repr

/-- Function `stop()` (`page.tsx` lines 62–75): set `stopFlagRef`, clear
`playingRef`, then `if (ctx && ctx.state === "running") try await
ctx.suspend() catch {}`.  `suspendOk` says whether the backend's
suspend succeeds; a failure is swallowed, leaving the context
running. -/
def stopOp (suspendOk : Bool) (s : PCState α) : PCState α :=
  let s' : PCState α := { s with stopFlag := true, playing := false }
  match s'.ctx with
  | some true => if suspendOk then { s' with ctx := some false } else s'
  | _ => s'

/-- Function `ensureAudioContext()` (`page.tsx` lines 55–60): reuse the context
if it exists, otherwise create one (modelled as created in the
`running` state, as after a user gesture). -/
def ensureAudioContext (s : PCState α) : PCState α :=
  { s with ctx := some (s.ctx.getD true) }

/-- The `for (const f of freqs)` loop of `playScale` (`page.tsx`
lines 96–136).  `i` is the iteration index; `stopDuring i` says
whether the user clicks Stop during iteration `i`'s
`await setTimeout` (the only point inside the loop where other code
can run, JavaScript being single threaded); `suspendOk` is the
backend's suspend-success oracle.  Each iteration checks
`stopFlagRef` first, otherwise starts the note (recording its
frequency), then sleeps — during which a `stop()` may run. -/
def playLoop (suspendOk : Bool) (stopDuring : ℕ → Bool) :
    List α → ℕ → PCState α → PCState α
  | [], _, s => s
  | f :: rest, i, s =>
    if s.stopFlag then s
    else
      let s1 : PCState α := { s with started := s.started ++ [f] }
      let s2 := if stopDuring i then stopOp suspendOk s1 else s1
      playLoop suspendOk stopDuring rest (i + 1) s2

/-- The epilogue of `playScale` (`page.tsx` lines 138–149):
`playingRef.current = false`, then if `stopFlagRef` is set and the
context is running, `try await ctx2.suspend() catch {}`. -/
def finishPlay (suspendOk : Bool) (s : PCState α) : PCState α :=
  let s' : PCState α := { s with playing := false }
  if s'.stopFlag then
    match s'.ctx with
    | some true => if suspendOk then { s' with ctx := some false } else s'
    | _ => s'
  else s'

/-- Function `playScale()` (`page.tsx` lines 77–149).  `fs` is the `freqs`
array captured by the closure at the moment of the call.  Oracles:
`stopDuringResume` — the user clicks Stop during `await ctx.resume()`;
`stopDuring i` — the user clicks Stop during iteration `i`'s sleep;
`resumeOk`/`suspendOk` — whether the backend's resume/suspend calls
succeed.  `await ctx.resume()` is NOT wrapped in try/catch in the
source, so its failure is an uncaught rejection, modelled as
`Except.error` carrying the state at the moment of the throw (the
refs already mutated: `stopFlag` cleared, `playing` set); every other
path returns the final state. -/
def playScale (stopDuringResume : Bool) (stopDuring : ℕ → Bool)
    (resumeOk suspendOk : Bool) (fs : List α) (s : PCState α) :
    Except (PCState α) (PCState α) :=
  if s.playing then Except.ok s
  else
    let s1 : PCState α := { s with stopFlag := false, playing := true }
    let s2 := ensureAudioContext s1
    match s2.ctx with
    | some false =>
      if resumeOk then
        let s3 : PCState α := { s2 with ctx := some true }
        let s4 := if stopDuringResume then stopOp suspendOk s3 else s3
        Except.ok (finishPlay suspendOk (playLoop suspendOk stopDuring fs 0 s4))
      else Except.error s2
    | _ =>
      Except.ok (finishPlay suspendOk (playLoop suspendOk stopDuring fs 0 s2))

/-! ### Lemmas about the playback loop -/

theorem stopOp_started (ok : Bool) (s : PCState α) :
    (stopOp ok s).started = s.started := by
  rcases s with ⟨sf, pl, ctx, st⟩
  rcases ctx with _ | b
  · rfl
  · cases b <;> cases ok <;> rfl

theorem stopOp_stopFlag (ok : Bool) (s : PCState α) :
    (stopOp ok s).stopFlag = true := by
  rcases s with ⟨sf, pl, ctx, st⟩
  rcases ctx with _ | b
  · rfl
  · cases b <;> cases ok <;> rfl

theorem finishPlay_started (ok : Bool) (s : PCState α) :
    (finishPlay ok s).started = s.started := by
  rcases s with ⟨sf, pl, ctx, st⟩
  cases sf
  · rfl
  · rcases ctx with _ | b
    · rfl
    · cases b <;> cases ok <;> rfl

/-- A loop entered with the cancellation flag already set starts no
note and returns immediately. -/
theorem playLoop_flagged (suspendOk : Bool) (stopDuring : ℕ → Bool)
    (l : List α) (i : ℕ) (s : PCState α) (hs : s.stopFlag = true) :
    playLoop suspendOk stopDuring l i s = s := by
  cases l <;> simp [playLoop, hs]

/-- A loop during which no stop is requested starts every note of the
captured list, in order, and changes nothing else. -/
theorem playLoop_no_stop (suspendOk : Bool) (stopDuring : ℕ → Bool) :
    ∀ (l : List α) (i : ℕ) (s : PCState α), s.stopFlag = false →
      (∀ j, j < l.length → stopDuring (i + j) = false) →
      playLoop suspendOk stopDuring l i s = { s with started := s.started ++ l }
  | [], i, s, hs, _ => by simp [playLoop]
  | f :: rest, i, s, hs, h => by
    have h0 : stopDuring i = false := by simpa using h 0 (by simp)
    have ih := playLoop_no_stop suspendOk stopDuring rest (i + 1)
      { s with started := s.started ++ [f] } hs
      (fun j hj => by
        have := h (j + 1) (by simpa using hj)
        simpa [Nat.add_comm 1 j, Nat.add_assoc] using this)
    simp only [hs] at ih
    simp only [playLoop, hs, h0, Bool.false_eq_true, if_false]
    rw [ih]
    simp

/-- A loop in which the first stop request arrives during iteration
`k`'s inter-note wait (with every suspend succeeding, and the audio
context running on entry) starts exactly notes `0 .. k`, exits before
note `k+1`, and leaves the context suspended with both flags
cleared-down (`stopFlag` set by `stop()`, `playing` cleared by it). -/
theorem playLoop_stop_at (stopDuring : ℕ → Bool) :
    ∀ (l : List α) (i k : ℕ) (s : PCState α), s.stopFlag = false →
      s.ctx = some true →
      (∀ j, j < k → stopDuring (i + j) = false) →
      stopDuring (i + k) = true → k < l.length →
      playLoop true stopDuring l i s =
        ⟨true, false, some false, s.started ++ l.take (k + 1)⟩
  | [], _, k, _, _, _, _, _, hk => by simp at hk
  | f :: rest, i, k, s, hs, hctx, hbefore, hat, hk => by
    rcases s with ⟨sf, pl, ctx, st⟩
    simp only at hs hctx
    subst hs
    subst hctx
    cases k with
    | zero =>
      have h0 : stopDuring i = true := by simpa using hat
      simp only [playLoop, Bool.false_eq_true, if_false, h0, if_true, stopOp]
      rw [playLoop_flagged]
      · simp
      · rfl
    | succ k1 =>
      have h0 : stopDuring i = false := by simpa using hbefore 0 (Nat.succ_pos k1)
      have ih := playLoop_stop_at stopDuring rest (i + 1) k1
        ⟨false, pl, some true, st ++ [f]⟩ rfl rfl
        (fun j hj => by
          have := hbefore (j + 1) (by omega)
          simpa [Nat.add_comm 1 j, Nat.add_assoc] using this)
        (by
          have : i + (k1 + 1) = i + 1 + k1 := by omega
          rw [← this]; exact hat)
        (by simpa using hk)
      simp only [playLoop, Bool.false_eq_true, if_false, h0]
      rw [ih]
      simp

/-- Whatever stops occur and whatever the entry state, the loop only
ever appends an initial segment of the captured list to the record of
started notes. -/
theorem playLoop_started_take (suspendOk : Bool) (stopDuring : ℕ → Bool) :
    ∀ (l : List α) (i : ℕ) (s : PCState α), ∃ k, k ≤ l.length ∧
      (playLoop suspendOk stopDuring l i s).started = s.started ++ l.take k
  | [], i, s => ⟨0, by simp [playLoop]⟩
  | f :: rest, i, s => by
    by_cases hs : s.stopFlag
    · exact ⟨0, by simp [playLoop, hs]⟩
    · have hs0 : s.stopFlag = false := by simpa using hs
      obtain ⟨k, hk, hst⟩ := playLoop_started_take suspendOk stopDuring rest (i + 1)
        (if stopDuring i then stopOp suspendOk { s with started := s.started ++ [f] }
         else { s with started := s.started ++ [f] })
      refine ⟨k + 1, by simpa using hk, ?_⟩
      simp only [hs0] at hst
      simp only [playLoop, hs0, Bool.false_eq_true, if_false]
      rw [hst]
      by_cases hd : stopDuring i <;>
        simp [hd, stopOp_started, List.take_succ_cons]

/-- From an idle state, with no stop click during the resume await and
the backend resume succeeding, `playScale` runs its loop from a reset
state — flag cleared, `playing` set, context running — and wraps up
with the epilogue. -/
theorem playScale_run (stopDuring : ℕ → Bool) (suspendOk : Bool)
    (fs : List α) (s : PCState α) (hp : s.playing = false) :
    playScale false stopDuring true suspendOk fs s =
      Except.ok (finishPlay suspendOk
        (playLoop suspendOk stopDuring fs 0 ⟨false, true, some true, s.started⟩)) := by
  rcases s with ⟨sf, pl, ctx, st⟩
  simp only at hp
  subst hp
  rcases ctx with _ | b
  · rfl
  · cases b <;> rfl

/-! ### Lemmas about the scale math -/

theorem freqs_length (baseHz : ℝ) (edo noteCount : ℤ) :
    (freqs baseHz edo noteCount).length = (max 1 (min edo noteCount)).toNat := by
  have hc : clampInt (noteCount : ℚ) 1 (edo : ℚ) =
      ((max 1 (min edo noteCount) : ℤ) : ℚ) := by
    have := clampInt_intCast noteCount 1 edo
    simpa using this
  simp only [freqs, List.length_map, List.length_range, hc, loopCount,
    Int.ceil_intCast]
  congr 1
  omega

theorem freqs_length_pos (baseHz : ℝ) (edo noteCount : ℤ) :
    0 < (freqs baseHz edo noteCount).length := by
  rw [freqs_length]
  omega

theorem freqs_getElem (baseHz : ℝ) (edo noteCount : ℤ) (i : ℕ)
    (h : i < (freqs baseHz edo noteCount).length) :
    (freqs baseHz edo noteCount)[i]? = some (freqForStep baseHz i edo) := by
  simp only [freqs] at h ⊢
  simp only [List.length_map, List.length_range] at h
  simp [List.getElem?_map, List.getElem?_range, h]

theorem freqForStep_zero (baseHz : ℝ) (edo : ℤ) :
    freqForStep baseHz 0 edo = baseHz := by
  simp [freqForStep, Real.rpow_natCast]

/-! ### Claim theorems: playback controller -/

/-- C1: if `stop()` is invoked while a play sequence is running —
here, during the inter-note wait of iteration `k` — the cancellation
flag is checked before each subsequent note, so exactly the notes
`0 .. k` of the captured list are started and none after the flag was
set; the loop exits early, and on exit via stop the output session is
left suspended (muted), with no residual sound. -/
theorem stop_cancels_pending_notes (stopDuring : ℕ → Bool) (fs : List α)
    (s : PCState α) (k : ℕ) (hp : s.playing = false)
    (hbefore : ∀ j, j < k → stopDuring j = false)
    (hat : stopDuring k = true) (hk : k < fs.length) :
    playScale false stopDuring true true fs s =
      Except.ok ⟨true, false, some false, s.started ++ fs.take (k + 1)⟩ := by
  rw [playScale_run stopDuring true fs s hp]
  rw [playLoop_stop_at stopDuring fs 0 k ⟨false, true, some true, s.started⟩
    rfl rfl (fun j hj => by simpa using hbefore j hj) (by simpa using hat) hk]
  rfl

theorem stop_cancels_pending_notes_witness :
    playScale false (fun j => j == 1) true true ([261, 293, 329] : List ℚ)
        ⟨false, false, none, []⟩ =
      Except.ok ⟨true, false, some false, [261, 293]⟩ := by
  have h := stop_cancels_pending_notes (α := ℚ) (fun j => j == 1)
    [261, 293, 329] ⟨false, false, none, []⟩ 1 rfl (by decide) (by decide)
    (by decide)
  simpa using h

/-- C2: calling `play()` while a sequence is already playing returns
at the `if (playingRef.current) return` guard without starting any
note or changing any state — re-entrant calls are ignored, not
queued, so at most one sequence's notes are ever emitted. -/
theorem play_reentrant_noop (stopDuringResume : Bool) (stopDuring : ℕ → Bool)
    (resumeOk suspendOk : Bool) (fs : List α) (s : PCState α)
    (hp : s.playing = true) :
    playScale stopDuringResume stopDuring resumeOk suspendOk fs s =
      Except.ok s := by
  simp [playScale, hp]

theorem play_reentrant_noop_witness :
    playScale false (fun _ => false) true true ([440] : List ℚ)
        ⟨false, true, some true, [220]⟩ =
      Except.ok ⟨false, true, some true, [220]⟩ :=
  play_reentrant_noop false (fun _ => false) true true [440]
    ⟨false, true, some true, [220]⟩ rfl

/-- C9 (implicit): whatever stop requests and backend outcomes occur,
a completed `playScale` call appends to the record of started notes
exactly an initial segment of the frequency list captured at the
moment of the call — later parameter changes produce a new list and
cannot alter the in-flight sequence. -/
theorem playScale_emits_captured_notes (stopDuringResume : Bool)
    (stopDuring : ℕ → Bool) (resumeOk suspendOk : Bool) (fs : List α)
    (s t : PCState α)
    (h : playScale stopDuringResume stopDuring resumeOk suspendOk fs s =
      Except.ok t) :
    ∃ k, k ≤ fs.length ∧ t.started = s.started ++ fs.take k := by
  rcases s with ⟨sf, pl, ctx, st⟩
  cases pl
  case true =>
    rw [play_reentrant_noop _ _ _ _ _ _ rfl] at h
    cases h
    exact ⟨0, by simp⟩
  case false =>
    have key : ∀ s0 : PCState α, s0.started = st →
        Except.ok (ε := PCState α)
            (finishPlay suspendOk (playLoop suspendOk stopDuring fs 0 s0)) =
          Except.ok t →
        ∃ k, k ≤ fs.length ∧ t.started = st ++ fs.take k := by
      intro s0 hst0 heq
      obtain ⟨k, hk, hs⟩ := playLoop_started_take suspendOk stopDuring fs 0 s0
      cases heq
      exact ⟨k, hk, by rw [finishPlay_started, hs, hst0]⟩
    rcases ctx with _ | b
    · exact key _ rfl h
    · cases b
      · cases resumeOk
        · simp [playScale, ensureAudioContext] at h
        · cases stopDuringResume
          · exact key _ rfl h
          · exact key (stopOp suspendOk ⟨false, true, some true, st⟩)
              (stopOp_started _ _) h
      · exact key _ rfl h

theorem playScale_emits_captured_notes_witness :
    ∃ k, k ≤ 2 ∧ (⟨false, false, some true, [329, 349]⟩ : PCState ℚ).started =
      ([] : List ℚ) ++ [329, 349].take k :=
  playScale_emits_captured_notes false (fun _ => false) true true
    [329, 349] ⟨false, false, none, []⟩ ⟨false, false, some true, [329, 349]⟩
    rfl

/-- C10 (implicit): `playScale` clears the cancellation flag before
emitting any note, so a stop request issued while idle — which may
also have left the context suspended — is discarded: the subsequent
sequence plays in full, resuming the context first, and ends with the
flag still clear and the context running. -/
theorem play_resets_stale_stop (stopDuring : ℕ → Bool) (suspendOk : Bool)
    (fs : List α) (s : PCState α) (hp : s.playing = false)
    (hnostop : ∀ j, stopDuring j = false) :
    playScale false stopDuring true suspendOk fs s =
      Except.ok ⟨false, false, some true, s.started ++ fs⟩ := by
  rw [playScale_run stopDuring suspendOk fs s hp]
  rw [playLoop_no_stop suspendOk stopDuring fs 0 ⟨false, true, some true, s.started⟩
    rfl (fun j _ => hnostop (0 + j))]
  rfl

theorem play_resets_stale_stop_witness :
    playScale false (fun _ => false) true true ([392, 440] : List ℚ)
        ⟨true, false, some false, []⟩ =
      Except.ok ⟨false, false, some true, [392, 440]⟩ := by
  have h := play_resets_stale_stop (α := ℚ) (fun _ => false) true [392, 440]
    ⟨true, false, some false, []⟩ rfl (fun _ => rfl)
  simpa using h

/-- C7 counterexample: the claim says `play()` and `stop()` never
propagate a suspend/resume failure of the output session.  But
`await ctx.resume()` in `playScale` is not wrapped in try/catch: on a
concrete idle state with a suspended context and a failing resume,
`playScale` propagates the rejection (with the refs already mutated)
instead of proceeding. -/
theorem play_propagates_resume_failure :
    playScale false (fun _ => false) false true ([440] : List ℚ)
        ⟨false, false, some false, []⟩ =
      Except.error ⟨false, true, some false, []⟩ := rfl

/-- C7 (amended): suspend failures are swallowed — `stop()` sets its
flags and proceeds leaving the context untouched when the backend's
suspend fails, and `playScale` still completes normally when every
suspend fails (provided it does not need to resume) — with no
retries; but a failure of `await ctx.resume()` at the start of
`playScale` is uncaught and propagates. -/
theorem suspend_failures_swallowed_resume_not (s : PCState α) (fs : List α)
    (stopDuringResume : Bool) (stopDuring : ℕ → Bool) (suspendOk : Bool) :
    (stopOp false s = ⟨true, false, s.ctx, s.started⟩) ∧
    (s.playing = false → s.ctx ≠ some false →
      ∃ t, playScale stopDuringResume stopDuring false false fs s =
        Except.ok t) ∧
    (s.playing = false → s.ctx = some false →
      playScale stopDuringResume stopDuring false suspendOk fs s =
        Except.error ⟨false, true, some false, s.started⟩) := by
  rcases s with ⟨sf, pl, ctx, st⟩
  refine ⟨?_, ?_, ?_⟩
  · rcases ctx with _ | b
    · rfl
    · cases b <;> rfl
  · intro hp hctx
    simp only at hp
    subst hp
    rcases ctx with _ | b
    · exact ⟨_, rfl⟩
    · cases b
      · exact absurd rfl hctx
      · exact ⟨_, rfl⟩
  · intro hp hctx
    simp only at hp hctx
    subst hp
    subst hctx
    rfl

theorem suspend_failures_swallowed_resume_not_witness :
    (stopOp false (⟨false, true, some true, [523]⟩ : PCState ℚ) =
      ⟨true, false, some true, [523]⟩) ∧
    (∃ t, playScale false (fun _ => false) false false ([523] : List ℚ)
        ⟨false, false, some true, []⟩ = Except.ok t) ∧
    (playScale false (fun _ => false) false false ([523] : List ℚ)
        ⟨false, false, some false, []⟩ =
      Except.error ⟨false, true, some false, []⟩) := by
  have h1 := (suspend_failures_swallowed_resume_not
    (⟨false, true, some true, [523]⟩ : PCState ℚ) [523] false
    (fun _ => false) false).1
  have h2 := (suspend_failures_swallowed_resume_not
    (⟨false, false, some true, []⟩ : PCState ℚ) [523] false
    (fun _ => false) false).2.1 rfl (by simp)
  have h3 := (suspend_failures_swallowed_resume_not
    (⟨false, false, some false, []⟩ : PCState ℚ) [523] false
    (fun _ => false) false).2.2 rfl rfl
  exact ⟨h1, h2, h3⟩

/-! ### Claim theorems: tuning input, scale math, envelope -/

/-- C3 counterexample: the claim says every tuning input is clamped,
`baseFrequencyHz` to `[50, 2000]`.  But the base-frequency `onChange`
handler stores `Number(e.target.value)` unchanged: the out-of-range
input `2500` is stored as `2500`, not clamped to `2000`. -/
theorem baseHz_not_clamped :
    baseHzOnChange 2500 = 2500 ∧ ¬ baseHzOnChange 2500 ≤ 2000 := by
  constructor
  · rfl
  · norm_num [baseHzOnChange]

/-- C3 (amended): the integer tuning inputs are rounded to the
nearest integer and then clamped, never rejected —
`divisionsPerOctave` to `[5, 53]` and `noteCount` to
`[1, divisionsPerOctave]` — while the `baseFrequencyHz` handler
stores the typed value unchanged (its `[50, 2000]` range exists only
as HTML input attributes, not as clamping of the stored state). -/
theorem tuning_input_clamping (v : ℚ) (edo : ℤ) (h : 1 ≤ edo) :
    edoOnChange v = max 5 (min 53 ((jsRound v : ℤ) : ℚ)) ∧
    5 ≤ edoOnChange v ∧ edoOnChange v ≤ 53 ∧
    noteCountOnChange v edo = max 1 (min (edo : ℚ) ((jsRound v : ℤ) : ℚ)) ∧
    1 ≤ noteCountOnChange v edo ∧ noteCountOnChange v edo ≤ (edo : ℚ) ∧
    baseHzOnChange v = v := by
  refine ⟨rfl, ?_, ?_, rfl, ?_, ?_, rfl⟩
  · exact le_max_left _ _
  · exact max_le (by norm_num) (min_le_left _ _)
  · exact le_max_left _ _
  · exact max_le (by exact_mod_cast h) (min_le_left _ _)

theorem tuning_input_clamping_witness :
    (5 ≤ edoOnChange 100.7 ∧ edoOnChange 100.7 ≤ 53) ∧
    noteCountOnChange 100.7 12 ≤ (12 : ℚ) ∧
    baseHzOnChange 2500 = 2500 := by
  have h1 := tuning_input_clamping 100.7 12 (by norm_num)
  have h2 := tuning_input_clamping 2500 12 (by norm_num)
  exact ⟨⟨h1.2.1, h1.2.2.1⟩, h1.2.2.2.2.2.1, h2.2.2.2.2.2.2⟩

/-- C4: for every base frequency, division count and note count, the
computed scale is the ordered sequence of entries for steps
`0 .. count-1`, of length exactly
`clampInt(noteCount, 1, divisionsPerOctave)`. -/
theorem computeScale_length_and_order (baseHz : ℝ) (edo noteCount : ℤ) :
    ((freqs baseHz edo noteCount).length : ℚ) =
      clampInt (noteCount : ℚ) 1 (edo : ℚ) ∧
    ∀ i, i < (freqs baseHz edo noteCount).length →
      (freqs baseHz edo noteCount)[i]? = some (freqForStep baseHz i edo) := by
  constructor
  · rw [freqs_length]
    have hc : clampInt (noteCount : ℚ) 1 (edo : ℚ) =
        ((max 1 (min edo noteCount) : ℤ) : ℚ) := by
      have := clampInt_intCast noteCount 1 edo
      simpa using this
    rw [hc]
    have hm : (0 : ℤ) ≤ max 1 (min edo noteCount) := by omega
    exact_mod_cast Int.toNat_of_nonneg hm
  · exact fun i h => freqs_getElem baseHz edo noteCount i h

theorem computeScale_length_and_order_witness :
    ((freqs 440 12 15).length : ℚ) = clampInt 15 1 12 ∧
    (freqs 440 12 15)[11]? = some (freqForStep 440 11 12) := by
  have h := computeScale_length_and_order (440 : ℝ) 12 15
  refine ⟨by exact_mod_cast h.1, h.2 11 ?_⟩
  rw [freqs_length]
  decide

/-- C5: every computed scale entry has frequency
`baseFrequencyHz * 2^(step / divisionsPerOctave)` and displayed cents
`1200 * step / divisionsPerOctave`; in particular step 0 yields the
base frequency and 0 cents. -/
theorem scale_entry_formula (baseHz : ℝ) (edo noteCount : ℤ) :
    (∀ i, i < (freqs baseHz edo noteCount).length →
      (freqs baseHz edo noteCount)[i]? =
        some (baseHz * (2 : ℝ) ^ ((i : ℝ) / (edo : ℝ)))) ∧
    (∀ step : ℕ, cents step edo = 1200 * (step : ℚ) / (edo : ℚ)) ∧
    (freqs baseHz edo noteCount)[0]? = some baseHz ∧
    cents 0 edo = 0 := by
  refine ⟨fun i h => freqs_getElem baseHz edo noteCount i h, ?_, ?_, ?_⟩
  · intro step
    simp [cents]
  · rw [freqs_getElem baseHz edo noteCount 0 (freqs_length_pos baseHz edo noteCount),
      freqForStep_zero]
  · simp [cents]

theorem scale_entry_formula_witness :
    (freqs 440 12 12)[7]? =
      some ((440 : ℝ) * (2 : ℝ) ^ (((7 : ℕ) : ℝ) / ((12 : ℤ) : ℝ))) ∧
    cents 7 12 = 700 ∧ (freqs 440 12 12)[0]? = some 440 := by
  have h := scale_entry_formula (440 : ℝ) 12 12
  refine ⟨h.1 7 ?_, ?_, h.2.2.1⟩
  · rw [freqs_length]
    decide
  · rw [h.2.1 7]
    norm_num

/-- C6: with a positive base frequency and a positive division count,
both the frequency and the cents value are strictly increasing in the
step. -/
theorem scale_monotone (baseHz : ℝ) (edo : ℤ) (step1 step2 : ℕ)
    (hb : 0 < baseHz) (he : 0 < edo) (hs : step1 < step2) :
    freqForStep baseHz step1 edo < freqForStep baseHz step2 edo ∧
    cents step1 edo < cents step2 edo := by
  have heR : (0 : ℝ) < (edo : ℝ) := by exact_mod_cast he
  have heQ : (0 : ℚ) < (edo : ℚ) := by exact_mod_cast he
  constructor
  · unfold freqForStep
    refine mul_lt_mul_of_pos_left ?_ hb
    refine Real.rpow_lt_rpow_of_exponent_lt (by norm_num) ?_
    rw [div_lt_div_iff_of_pos_right heR]
    exact_mod_cast hs
  · unfold cents
    rw [div_lt_div_iff_of_pos_right heQ]
    have : (step1 : ℚ) < (step2 : ℚ) := by exact_mod_cast hs
    nlinarith

theorem scale_monotone_witness :
    freqForStep 440 0 12 < freqForStep 440 7 12 ∧ cents 0 12 < cents 7 12 :=
  scale_monotone 440 12 0 7 (by norm_num) (by norm_num) (by norm_num)

/-- C8: every note's schedule ramps the gain exponentially from the
positive floor 0.0001 to the peak 0.2 over an 8 ms attack, holds 0.2
until `max(attack, noteDuration - release)` with a 240 ms note and a
25 ms release, ramps back to the floor by 240 ms, stops the
oscillator 10 ms after the note, and has the loop wait
`240 + 30` ms of wall clock before the next note. -/
theorem note_envelope_schedule (now : ℚ) :
    scheduleNote now =
      { gainEvents :=
          [ GainEvent.setValue 0.0001 now,
            GainEvent.expRamp 0.2 (now + 0.008),
            GainEvent.setValue 0.2 (now + max 0.008 (0.24 - 0.025)),
            GainEvent.expRamp 0.0001 (now + 0.24) ],
        oscStart := now,
        oscStopAt := now + 0.24 + 0.01,
        waitMs := 240 + 30 } ∧
    (0 : ℚ) < 0.0001 ∧ max (0.008 : ℚ) (0.24 - 0.025) = 0.215 := by
  refine ⟨?_, by norm_num, by norm_num⟩
  simp only [scheduleNote, noteMs, gapMs, attackMs, releaseMs]
  norm_num

end MicrobeMusic
